import Mathlib

/-!
Verification of the git backend's object/ref/protocol layer.

Shallow embedding conventions used throughout this file:

* Rust byte slices (`&[u8]`, `Vec<u8>`) are `List Nat`; each element stands
  for one byte (values are < 256 in every store the theorems touch).
* Rust `String`/`&str` values are also `List Nat` (their UTF-8 bytes).  All
  protocol data handled by the claims is ASCII, so `String::from_utf8` is
  modelled as succeeding exactly when every byte is < 128 (multi-byte UTF-8
  sequences are outside the fragment exercised here), and byte-indexed `str`
  slicing coincides with Rust's byte-indexed slicing.
* The S3 blob store is a function `List Nat → Option (List Nat)` from keys to
  blob contents, together with a listing function; `put`/`delete` are
  functional updates.  Put errors are not modelled (every put succeeds).
* External library calls (the `sha1` crate, `flate2` zlib) are not repository
  code; they enter as function parameters of the embedded definitions.
* Loops are embedded as fuel-indexed structural recursions.  In every case
  the fuel either is exactly the loop's own counter bound (so the fuel-0
  branch is precisely the source's bound check) or is initialised to the
  length of the consumed stream, which strictly shrinks each iteration, so
  the fuel-exhaustion branch is unreachable; each definition documents which.
-/

/-- Bytes of a Lean string literal: used to transcribe Rust string/byte
literals from the source. -/
def sb (s : String) : List Nat := s.toList.map Char.toNat

/-- ASCII whitespace, the ASCII fragment of Rust's `char::is_whitespace`. -/
def isWsByte (b : Nat) : Bool := b = 32 ∨ b = 9 ∨ b = 10 ∨ b = 11 ∨ b = 12 ∨ b = 13

/-- Rust `str::trim` (ASCII model). -/
def rustTrim (l : List Nat) : List Nat :=
  ((l.dropWhile isWsByte).reverse.dropWhile isWsByte).reverse

/-- Whether `pat` is a prefix of `s` (Rust `starts_with`). -/
def isPre : List Nat → List Nat → Bool
  | [], _ => true
  | _ :: _, [] => false
  | a :: ps, b :: qs => a = b && isPre ps qs

/-- Rust `strip_prefix`. -/
def stripPre (pat s : List Nat) : Option (List Nat) :=
  if isPre pat s then some (s.drop pat.length) else none

/-- Rust `ends_with`. -/
def endsW (pat s : List Nat) : Bool :=
  pat.length ≤ s.length && s.drop (s.length - pat.length) = pat

/-- Rust `String::from_utf8` in the ASCII model: succeeds iff all bytes
are < 128 (the embedded protocol data is ASCII). -/
def rustFromUtf8 (l : List Nat) : Option (List Nat) :=
  if l.all (fun b => b < 128) then some l else none

/-- Rust `str::contains` for a literal pattern. -/
def containsSub : List Nat → List Nat → Bool
  | _, [] => isPre [] []
  | pat, s@(_ :: rest) => isPre pat s || containsSub pat rest

/-- Rust `is_ascii_hexdigit`. -/
def isHexDigitByte (b : Nat) : Bool :=
  (48 ≤ b ∧ b ≤ 57) ∨ (97 ≤ b ∧ b ≤ 102) ∨ (65 ≤ b ∧ b ≤ 70)

/-! ## Delta codec (`src/apps/api/src/git/objects.rs`, `read_varint` / `apply_delta`) -/

/-- Loop body of `read_varint` (objects.rs 779-806).  The source walks `data`
by an index `pos`; here the stream is consumed instead and the remainder is
returned in place of the byte count. -/
def readVarintGo : List Nat → Nat → Nat → Option (Nat × List Nat)
  | [], _, _ => none
  | b :: rest, shift, acc =>
    let acc2 := acc ||| ((b &&& 0x7f) <<< shift)
    if b &&& 0x80 = 0 then some (acc2, rest) else readVarintGo rest (shift + 7) acc2

/-- Function `read_varint` (objects.rs 779-806): returns the decoded value and the
unconsumed remainder of the stream. -/
def read_varint (data : List Nat) : Option (Nat × List Nat) :=
  readVarintGo data 0 0

/-- One byte of `delta.get(pos).copied().unwrap_or(0)` followed by `pos += 1`:
reads the head (default 0 past the end) and drops it. -/
def takeByte : List Nat → Nat × List Nat
  | [] => (0, [])
  | x :: xs => (x, xs)

/-- The seven conditional argument-byte reads of a COPY command
(objects.rs 718-753): returns `(copy_offset, copy_size, rest)` with the
zero-size-means-0x10000 rule applied. -/
def readCopyArgs (cmd : Nat) (rest : List Nat) : Nat × Nat × List Nat :=
  let s0 := if cmd &&& 0x01 ≠ 0 then takeByte rest else (0, rest)
  let s1 := if cmd &&& 0x02 ≠ 0 then takeByte s0.2 else (0, s0.2)
  let s2 := if cmd &&& 0x04 ≠ 0 then takeByte s1.2 else (0, s1.2)
  let s3 := if cmd &&& 0x08 ≠ 0 then takeByte s2.2 else (0, s2.2)
  let t0 := if cmd &&& 0x10 ≠ 0 then takeByte s3.2 else (0, s3.2)
  let t1 := if cmd &&& 0x20 ≠ 0 then takeByte t0.2 else (0, t0.2)
  let t2 := if cmd &&& 0x40 ≠ 0 then takeByte t1.2 else (0, t1.2)
  let copyOffset := s0.1 ||| (s1.1 <<< 8) ||| (s2.1 <<< 16) ||| (s3.1 <<< 24)
  let copySize := t0.1 ||| (t1.1 <<< 8) ||| (t2.1 <<< 16)
  (copyOffset, if copySize = 0 then 0x10000 else copySize, t2.2)

/-- The `while pos < delta.len()` instruction loop of `apply_delta`
(objects.rs 713-770), consuming the instruction stream.  The fuel is
initialised to the stream length; every iteration consumes at least the
command byte, so the fuel-exhaustion branch is unreachable from
`apply_delta`. -/
def applyDeltaGo (base : List Nat) : Nat → List Nat → List Nat → Option (List Nat)
  | _, [], acc => some acc
  | 0, _ :: _, _ => none
  | fuel + 1, cmd :: rest, acc =>
    if cmd &&& 0x80 ≠ 0 then
      let a := readCopyArgs cmd rest
      if a.1 + a.2.1 > base.length then none
      else applyDeltaGo base fuel a.2.2 (acc ++ (base.drop a.1).take a.2.1)
    else if cmd ≠ 0 then
      if cmd > rest.length then none
      else applyDeltaGo base fuel (rest.drop cmd) (acc ++ rest.take cmd)
    else none

/-- Function `apply_delta` (objects.rs 702-777): source-size varint (unused), target
size varint, instruction loop, final exact-length check. -/
def apply_delta (base delta : List Nat) : Option (List Nat) :=
  match read_varint delta with
  | none => none
  | some (_srcSize, r1) =>
    match read_varint r1 with
    | none => none
    | some (dstSize, r2) =>
      match applyDeltaGo base r2.length r2 [] with
      | none => none
      | some result => if result.length = dstSize then some result else none

/-- The target size declared by a delta's second varint (spec: "the delta's
declared target size"). -/
def delta_target_size (delta : List Nat) : Option Nat :=
  match read_varint delta with
  | none => none
  | some (_, r1) =>
    match read_varint r1 with
    | none => none
    | some (dstSize, _) => some dstSize

/-- One instruction of the delta mini-language as described by the spec:
COPY with resolved offset/size, or INSERT with its literal bytes. -/
inductive DeltaInst where
  | copy (off sz : Nat)
  | ins (bytes : List Nat)
deriving DecidableEq

/-- Modelled from the spec's words for the instruction grammar: parse the
instruction stream into a list of instructions.  Parsing fails on a 0x00
command byte and on an INSERT whose literal bytes do not lie within the
delta; COPY argument bytes absent past the end default to 0. -/
def parseDeltaInsts : Nat → List Nat → Option (List DeltaInst)
  | _, [] => some []
  | 0, _ :: _ => none
  | fuel + 1, cmd :: rest =>
    if cmd &&& 0x80 ≠ 0 then
      let a := readCopyArgs cmd rest
      (parseDeltaInsts fuel a.2.2).map (fun l => DeltaInst.copy a.1 a.2.1 :: l)
    else if cmd ≠ 0 then
      if cmd > rest.length then none
      else (parseDeltaInsts fuel (rest.drop cmd)).map (fun l => DeltaInst.ins (rest.take cmd) :: l)
    else none

/-- Spec-side bound for one instruction: every COPY must satisfy
`copy_offset + copy_size ≤ base.len`. -/
def instOk (baseLen : Nat) : DeltaInst → Bool
  | .copy off sz => off + sz ≤ baseLen
  | .ins _ => true

/-- Spec-side meaning of one instruction applied to the base. -/
def execInst (base : List Nat) : DeltaInst → List Nat
  | .copy off sz => (base.drop off).take sz
  | .ins bytes => bytes

/-- Modelled from the spec's words (claim C3): a result is produced exactly
when the two size varints parse, the instruction stream parses (no 0x00
command, INSERTs in bounds), every COPY is within the base, and the output
length equals the declared target size. -/
def spec_apply_delta (base delta : List Nat) : Option (List Nat) :=
  match read_varint delta with
  | none => none
  | some (_srcSize, r1) =>
    match read_varint r1 with
    | none => none
    | some (dstSize, r2) =>
      match parseDeltaInsts r2.length r2 with
      | none => none
      | some insts =>
        if insts.all (instOk base.length) then
          if ((insts.map (execInst base)).flatten).length = dstSize then
            some ((insts.map (execInst base)).flatten)
          else none
        else none

/-- Replay loop of `apply_delta_chain` (objects.rs 263-279): the chain is
processed in reverse; a failing `apply_delta` is logged and skipped, leaving
`content` unchanged. -/
def applyDeltaChainGo : List Nat → List (List Nat × List Nat) → List Nat
  | content, [] => content
  | content, (_oid, delta) :: rest =>
    applyDeltaChainGo
      (match apply_delta content delta with
       | some newContent => newContent
       | none => content)
      rest

/-- Function `apply_delta_chain` (objects.rs 263-279).  Its result type has no error
case: it always returns an object type and content. -/
def apply_delta_chain (base : List Nat × List Nat) (deltaChain : List (List Nat × List Nat)) :
    List Nat × List Nat :=
  (base.1, applyDeltaChainGo base.2 deltaChain.reverse)

/-! ## pkt-line framing (`src/apps/api/src/git/pack.rs`, `parse_pkt_lines`)
and the hex formatting used by the advertisement / response builders. -/

/-- Lowercase hex digit byte for a value < 16 (larger values only arise from
invalid inputs never produced by the embedded callers). -/
def hexDigitByte (n : Nat) : Nat := if n < 10 then 48 + n else 87 + n

/-- Digit-accumulating loop for hex rendering of arbitrarily large values;
fuel `n` bounds the digit count (a value has at most `n` hex digits). -/
def hexGo : Nat → Nat → List Nat → List Nat
  | 0, n, acc => hexDigitByte (n % 16) :: acc
  | fuel + 1, n, acc =>
    if n < 16 then hexDigitByte n :: acc
    else hexGo fuel (n / 16) (hexDigitByte (n % 16) :: acc)

/-- Rust `format!("{:04x}", n)` as bytes: four zero-padded lowercase hex
digits for n < 0x10000, more digits beyond. -/
def hex4 (n : Nat) : List Nat :=
  if n < 0x10000 then
    [hexDigitByte (n / 4096), hexDigitByte (n / 256 % 16),
     hexDigitByte (n / 16 % 16), hexDigitByte (n % 16)]
  else hexGo n n []

/-- Value of one ASCII hex digit byte (`u16::from_str_radix` digit set:
0-9, a-f, A-F). -/
def hexVal (b : Nat) : Option Nat :=
  if 48 ≤ b ∧ b ≤ 57 then some (b - 48)
  else if 97 ≤ b ∧ b ≤ 102 then some (b - 87)
  else if 65 ≤ b ∧ b ≤ 70 then some (b - 55)
  else none

/-- Digit fold of `from_str_radix(_, 16)`. -/
def hexFold : List Nat → Nat → Option Nat
  | [], acc => some acc
  | b :: rest, acc =>
    match hexVal b with
    | none => none
    | some v => hexFold rest (16 * acc + v)

/-- Rust `u16::from_str_radix(s, 16)`: optional leading `+`, at least one
digit, error on any non-digit or on overflow past 0xffff. -/
def rustU16Radix16 (s : List Nat) : Option Nat :=
  let digits := match s with
    | c :: rest => if c = 43 then rest else c :: rest
    | [] => []
  if digits = [] then none
  else
    match hexFold digits 0 with
    | none => none
    | some v => if v ≤ 0xffff then some v else none

/-- Loop of `parse_pkt_lines` (pack.rs 217-250), consuming the stream in
place of the source's `offset` cursor.  The source's two exit guards,
`offset < data.len()` on the `while` and the `offset + 4 > data.len()`
break, coincide with the single `rem.length < 4` check here.  Each
iteration consumes at least 4 bytes, so fuel = initial stream length makes
the fuel-exhaustion branch unreachable from `parse_pkt_lines`. -/
def parsePktGo : Nat → List Nat → List (List Nat)
  | 0, _ => []
  | fuel + 1, rem =>
    if rem.length < 4 then []
    else
      let lenHex := rem.take 4
      let len := (rustU16Radix16 ((rustFromUtf8 lenHex).getD (sb "0000"))).getD 0
      if len = 0 then parsePktGo fuel (rem.drop 4)
      else if len < 4 then []
      else if len > rem.length then []
      else
        match rustFromUtf8 ((rem.drop 4).take (len - 4)) with
        | some line => rustTrim line :: parsePktGo fuel (rem.drop len)
        | none => parsePktGo fuel (rem.drop len)

/-- Function `parse_pkt_lines` (pack.rs 217-250). -/
def parse_pkt_lines (data : List Nat) : List (List Nat) :=
  parsePktGo data.length data

/-- The pkt-line framing of one line as produced by the repository's writers
(refs.rs 79-86, pack.rs 102-108): 4 hex length digits then the line. -/
def pktLine (line : List Nat) : List Nat :=
  hex4 (line.length + 4) ++ line

/-- Encoding of a list of lines as consecutive pkt-line frames (refs.rs
79-85, before the trailing flush). -/
def pktEncode (lines : List (List Nat)) : List Nat :=
  (lines.map pktLine).flatten

/-! ## Store model.  The S3-backed repository store (`R2GitStore`,
objects.rs 5-10) is modelled by its key-value view: `s3get`/`s3list` are the
blob store, `cache` is the in-process object cache, `pfx` is the
per-repository key namespace (`store.prefix`).  Cache/pack-list insertions
performed after a successful read do not change the value a call returns and
are elided. -/

structure GitStore where
  pfx : List Nat
  s3get : List Nat → Option (List Nat)
  s3list : List Nat → List (List Nat)
  cache : List Nat → Option (List Nat)

/-- Functional S3 `put_object`: the store with `key` bound to `data`. -/
def kvPut (st : GitStore) (key data : List Nat) : GitStore :=
  { st with s3get := fun k => if k = key then some data else st.s3get k }

/-- Functional S3 `delete_object`: the store with `key` absent. -/
def kvDelete (st : GitStore) (key : List Nat) : GitStore :=
  { st with s3get := fun k => if k = key then none else st.s3get k }

/-! ## Pack index (`create_pack_index`, pack.rs 339-363, and
`find_object_in_index`, objects.rs 389-492). -/

/-- Big-endian u32 read at byte position `p` (`u32::from_be_bytes`); the
source only reads at positions it has bounds-checked, so the out-of-range
default 0 is never observed. -/
def be32 (d : List Nat) (p : Nat) : Nat :=
  (d.getD p 0) <<< 24 ||| (d.getD (p + 1) 0) <<< 16 ||| (d.getD (p + 2) 0) <<< 8 ||| d.getD (p + 3) 0

/-- Big-endian u64 read at byte position `p`. -/
def be64 (d : List Nat) (p : Nat) : Nat :=
  (be32 d p) <<< 32 ||| be32 d (p + 4)

/-- Function `create_pack_index` (pack.rs 339-363): magic, version 2, a
zero-filled fanout, the pack SHA-1, and the index SHA-1 over everything
before it.  `sha` abstracts the `sha1` crate. -/
def create_pack_index (sha : List Nat → List Nat) (packData : List Nat) : Option (List Nat) :=
  if packData.length < 12 then none
  else
    let idx := [0xff, 0x74, 0x4f, 0x63] ++ [0, 0, 0, 2] ++ List.replicate (256 * 4) 0
    let packChecksum := sha packData
    some (idx ++ packChecksum ++ sha (idx ++ packChecksum))

/-- Search loop of `find_object_in_index` (objects.rs 444-489): scan entries
`i ∈ [startIdx, endIdx)` of the SHA table; the count argument is
`endIdx - i`, the loop's remaining iterations. -/
def foiiGo (idxData target : List Nat) (totalObjects shaTableStart : Nat) :
    Nat → Nat → Option Nat
  | _, 0 => none
  | i, cnt + 1 =>
    let shaOffset := shaTableStart + i * 20
    if shaOffset + 20 > idxData.length then none
    else if (idxData.drop shaOffset).take 20 = target then
      let crcTableStart := shaTableStart + totalObjects * 20
      let offsetTableStart := crcTableStart + totalObjects * 4
      let offsetPos := offsetTableStart + i * 4
      if offsetPos + 4 > idxData.length then none
      else
        let off := be32 idxData offsetPos
        if off &&& 0x80000000 ≠ 0 then
          let largeOffsetIdx := off &&& 0x7fffffff
          let largeOffsetTableStart := offsetTableStart + totalObjects * 4
          let largeOffsetPos := largeOffsetTableStart + largeOffsetIdx * 8
          if largeOffsetPos + 8 > idxData.length then none
          else some (be64 idxData largeOffsetPos)
        else some off
    else foiiGo idxData target totalObjects shaTableStart (i + 1) cnt

/-- Function `find_object_in_index` (objects.rs 389-492). -/
def find_object_in_index (idxData target : List Nat) : Option Nat :=
  if idxData.length < 8 ∨ target.length ≠ 20 then none
  else if idxData.take 4 ≠ [0xff, 0x74, 0x4f, 0x63] then none
  else if be32 idxData 4 ≠ 2 then none
  else
    let fanoutStart := 8
    let fanoutEnd := fanoutStart + 256 * 4
    if idxData.length < fanoutEnd then none
    else
      let totalObjects := be32 idxData (fanoutEnd - 4)
      let firstByte := target.headD 0
      let startIdx := if firstByte = 0 then 0 else be32 idxData (fanoutStart + (firstByte - 1) * 4)
      let endIdx := be32 idxData (fanoutStart + firstByte * 4)
      foiiGo idxData target totalObjects fanoutEnd startIdx (endIdx - startIdx)

/-- Size-continuation loop of `read_pack_object_header` (objects.rs
508-514): consumes bytes while the previous byte had its high bit set,
returning the accumulated size and the number of bytes consumed. -/
def hdrCont : List Nat → Nat → Nat → Nat × Nat
  | [], size, _ => (size, 0)
  | b :: rest, size, shift =>
    let size2 := size ||| ((b &&& 0x7f) <<< shift)
    if b &&& 0x80 ≠ 0 then
      let r := hdrCont rest size2 (shift + 7)
      (r.1, r.2 + 1)
    else (size2, 1)

/-- Function `read_pack_object_header` (objects.rs 494-517): returns
`(obj_type, size, header_end_offset)`. -/
def read_pack_object_header (packData : List Nat) (offset : Nat) : Option (Nat × Nat × Nat) :=
  if offset ≥ packData.length then none
  else
    let rem := packData.drop offset
    let firstByte := rem.headD 0
    let objType := (firstByte >>> 4) &&& 0x07
    let size0 := firstByte &&& 0x0f
    if firstByte &&& 0x80 ≠ 0 then
      let r := hdrCont (rem.drop 1) size0 4
      some (objType, r.1, offset + 1 + r.2)
    else some (objType, size0, offset + 1)

/-! ## Object lookup (`get_object` / `get_from_pack`, objects.rs 26-139).
The two delta-resolution helpers that a pack hit can dispatch to —
`extract_object_with_deltas` (objects.rs 532-556) and `resolve_ref_delta`
(objects.rs 141-173, which re-enters the store asynchronously) — are
abstracted as the function parameters `ex` and `rd`: the claims settled
here are independent of what those return. -/

/-- Rust `hex::decode`: pairs of hex digits to bytes; fails on odd length or
a non-digit. -/
def hexDecode : List Nat → Option (List Nat)
  | [] => some []
  | [_] => none
  | a :: b :: rest =>
    match hexVal a, hexVal b with
    | some va, some vb =>
      match hexDecode rest with
      | some tail => some ((16 * va + vb) :: tail)
      | none => none
    | _, _ => none

/-- Rust `str::replace` (all non-overlapping occurrences, left to right);
fuel = the haystack length, consumed at least one byte per step. -/
def rustReplaceGo (pat toS : List Nat) : Nat → List Nat → List Nat
  | _, [] => []
  | 0, s => s
  | fuel + 1, s@(c :: rest) =>
    if isPre pat s then toS ++ rustReplaceGo pat toS fuel (s.drop pat.length)
    else c :: rustReplaceGo pat toS fuel rest

/-- Rust `str::replace`. -/
def rustReplace (s pat toS : List Nat) : List Nat :=
  if pat = [] then s else rustReplaceGo pat toS s.length s

/-- The `objects/xx/yyyy...` key of a loose object (objects.rs 22-24). -/
def object_path (st : GitStore) (oid : List Nat) : List Nat :=
  st.pfx ++ sb "/objects/" ++ oid.take 2 ++ sb "/" ++ oid.drop 2

/-- Pack iteration of `get_from_pack` (objects.rs 94-135) over the listed
`.idx` keys.  A REF_DELTA hit consults `rd`, any other hit consults `ex`
(also when the header read fails, mirroring the source's wildcard arm);
failure of either falls through to the next pack. -/
def gfpLoop (st : GitStore) (ex : List Nat → List Nat → Nat → Option (List Nat))
    (rd : List Nat → Nat → Option (List Nat)) (target : List Nat) :
    List (List Nat) → Option (List Nat)
  | [] => none
  | idxPath :: restFiles =>
    match st.s3get idxPath with
    | none => gfpLoop st ex rd target restFiles
    | some idxData =>
      match find_object_in_index idxData target with
      | none => gfpLoop st ex rd target restFiles
      | some offset =>
        match st.s3get (rustReplace idxPath (sb ".idx") (sb ".pack")) with
        | none => gfpLoop st ex rd target restFiles
        | some packData =>
          match read_pack_object_header packData offset with
          | some (objType, _size, headerEnd) =>
            if objType = 7 then
              match rd packData headerEnd with
              | some obj => some obj
              | none => gfpLoop st ex rd target restFiles
            else
              match ex packData idxData offset with
              | some obj => some obj
              | none => gfpLoop st ex rd target restFiles
          | none =>
            match ex packData idxData offset with
            | some obj => some obj
            | none => gfpLoop st ex rd target restFiles

/-- The `.idx` keys under `objects/pack` (`get_pack_idx_files`, objects.rs
66-88; the memoisation is elided). -/
def get_pack_idx_files (st : GitStore) : List (List Nat) :=
  (st.s3list (st.pfx ++ sb "/objects/pack")).filter (fun f => endsW (sb ".idx") f)

/-- Function `get_from_pack` (objects.rs 90-139). -/
def get_from_pack (st : GitStore) (ex : List Nat → List Nat → Nat → Option (List Nat))
    (rd : List Nat → Nat → Option (List Nat)) (oid : List Nat) : Option (List Nat) :=
  match hexDecode oid with
  | none => none
  | some target => gfpLoop st ex rd target (get_pack_idx_files st)

/-- Function `get_object` (objects.rs 26-54): cache, then loose blob, then
packs.  The cache insertion on success happens after the returned value is
determined and is elided. -/
def get_object (st : GitStore) (ex : List Nat → List Nat → Nat → Option (List Nat))
    (rd : List Nat → Nat → Option (List Nat)) (oid : List Nat) : Option (List Nat) :=
  match st.cache oid with
  | some data => some data
  | none =>
    match st.s3get (object_path st oid) with
    | some data => some data
    | none => get_from_pack st ex rd oid

/-! ## Ref layer (objects.rs 281-382). -/

/-- Rust `str::lines`: split on `\n`, drop a final empty segment produced by
a trailing newline, strip one trailing `\r` per line. -/
def rustLines (s : List Nat) : List (List Nat) :=
  let parts := s.splitOn 10
  let parts := if parts.getLast? = some [] then parts.dropLast else parts
  parts.map (fun ln => if ln.getLast? = some 13 then ln.dropLast else ln)

/-- First-separator split (Rust `splitn(2, sep)` step): the part before the
first `sep` and the part after it, if any. -/
def splitFirst (sep : Nat) : List Nat → Option (List Nat × List Nat)
  | [] => none
  | c :: rest =>
    if c = sep then some ([], rest)
    else (splitFirst sep rest).map (fun p => (c :: p.1, p.2))

/-- Rust `splitn(2, sep)`. -/
def splitn2 (sep : Nat) (l : List Nat) : List (List Nat) :=
  match splitFirst sep l with
  | none => [l]
  | some (a, b) => [a, b]

/-- Function `read_ref` (objects.rs 281-288): the trimmed UTF-8 content of
the blob at `<prefix>/<name>`. -/
def read_ref (st : GitStore) (name : List Nat) : Option (List Nat) :=
  match st.s3get (st.pfx ++ sb "/" ++ name) with
  | none => none
  | some data =>
    match rustFromUtf8 data with
    | none => none
    | some content => some (rustTrim content)

/-- Function `write_ref` (objects.rs 290-293): puts `<oid>\n` at
`<prefix>/<name>`. -/
def write_ref (st : GitStore) (name oid : List Nat) : GitStore :=
  kvPut st (st.pfx ++ sb "/" ++ name) (oid ++ sb "\n")

/-- Function `read_packed_refs` (objects.rs 329-349): parse `packed-refs`
lines into `(refname, oid)` pairs, skipping blanks, `#` comments and `^`
peel lines. -/
def read_packed_refs (st : GitStore) : Option (List (List Nat × List Nat)) :=
  match st.s3get (st.pfx ++ sb "/packed-refs") with
  | none => none
  | some data =>
    match rustFromUtf8 data with
    | none => none
    | some content =>
      some ((rustLines content).filterMap (fun rawLine =>
        let line := rustTrim rawLine
        if line = [] ∨ line.headD 0 = 35 ∨ line.headD 0 = 94 then none
        else
          match splitn2 32 line with
          | [oid, refName] => some (refName, oid)
          | _ => none))

/-- Loose-ref accumulation loop of `list_refs` (objects.rs 313-323): each
listed key is read, trimmed, and appended unless a ref of the same name is
already present. -/
def listRefsLoop (st : GitStore) : List (List Nat × List Nat) → List (List Nat) →
    List (List Nat × List Nat)
  | refs, [] => refs
  | refs, key :: restKeys =>
    let refName := match stripPre (st.pfx ++ sb "/") key with
      | some r => r
      | none => key
    match st.s3get key with
    | none => listRefsLoop st refs restKeys
    | some data =>
      match rustFromUtf8 data with
      | none => listRefsLoop st refs restKeys
      | some oidRaw =>
        let oid := rustTrim oidRaw
        if refs.any (fun p => p.1 = refName) then listRefsLoop st refs restKeys
        else listRefsLoop st (refs ++ [(refName, oid)]) restKeys

/-- Function `list_refs` (objects.rs 295-327): packed-refs entries under the
prefix first, then loose refs that do not repeat an already-present name. -/
def list_refs (st : GitStore) (pre : List Nat) : List (List Nat × List Nat) :=
  let packedPart := match read_packed_refs st with
    | some packed => packed.filter (fun p => isPre pre p.1)
    | none => []
  listRefsLoop st packedPart (st.s3list (st.pfx ++ sb "/" ++ pre))

/-- Packed-refs fallback of `resolve_ref_inner` (objects.rs 372-378): the
first packed entry whose name matches. -/
def packedLookup (st : GitStore) (name : List Nat) : Option (List Nat) :=
  match read_packed_refs st with
  | some packed => (packed.find? (fun p => p.1 = name)).map (fun p => p.2)
  | none => none

/-- Function `resolve_ref_inner` (objects.rs 355-382).  The source carries a
`depth` counter with guard `depth > 10`; here `fuel = 11 - depth`, so fuel 0
is exactly the source's depth guard. -/
def resolveRefGo (st : GitStore) : Nat → List Nat → Option (List Nat)
  | 0, _ => none
  | fuel + 1, name =>
    match read_ref st name with
    | some content =>
      if isPre (sb "ref: ") content then
        match stripPre (sb "ref: ") content with
        | some target => resolveRefGo st fuel target
        | none => none
      else if content.length = 40 ∧ content.all isHexDigitByte then some content
      else packedLookup st name
    | none => packedLookup st name

/-- Function `resolve_ref` (objects.rs 351-353): depth starts at 0, so the
fuel starts at 11. -/
def resolve_ref (st : GitStore) (name : List Nat) : Option (List Nat) :=
  resolveRefGo st 11 name

/-! ## Advertisement (`get_refs_advertisement`, refs.rs 20-98) and the
`info_refs` route body (routes/git.rs 582-625).  The short-TTL in-process
advertisement cache returns previously built bytes unchanged and is
elided. -/

/-- Capability string for `git-upload-pack` (refs.rs 23, joined with
spaces). -/
def upload_caps : List Nat :=
  sb "ofs-delta shallow no-progress include-tag symref=HEAD:refs/heads/main"

/-- Capability string for `git-receive-pack` (refs.rs 25). -/
def receive_caps : List Nat := sb "report-status delete-refs ofs-delta"

/-- Rust `"0".repeat(40)`. -/
def zero_oid : List Nat := List.replicate 40 48

/-- The refs assembled by the advertisement: `refs/heads` then `refs/tags`
(refs.rs 42-52). -/
def advRefs (st : GitStore) : List (List Nat × List Nat) :=
  list_refs st (sb "refs/heads") ++ list_refs st (sb "refs/tags")

/-- The capability-carrying first advertised ref (refs.rs 63-67): HEAD when
resolvable, else the first listed ref. -/
def advFirstRef (st : GitStore) : List Nat × List Nat :=
  match resolve_ref st (sb "HEAD") with
  | some h => (sb "HEAD", h)
  | none => (advRefs st).headD ([], [])

/-- Advertised ref lines (refs.rs 56-77): the zero-OID capabilities
pseudo-ref for an empty repository, otherwise the capability-carrying first
ref followed by the remaining refs (refs already printed as the first ref
are skipped unless HEAD failed to resolve). -/
def advLines (st : GitStore) (capabilities : List Nat) : List (List Nat) :=
  if advRefs st = [] then
    [zero_oid ++ sb " capabilities^\x7b\x7d\x00" ++ capabilities ++ sb "\n"]
  else
    ((advFirstRef st).2 ++ sb " " ++ (advFirstRef st).1 ++ sb "\x00" ++ capabilities ++ sb "\n") ::
      ((advRefs st).filter
        (fun p => p.1 ≠ (advFirstRef st).1 ∨ resolve_ref st (sb "HEAD") = none)).map
        (fun p => p.2 ++ sb " " ++ p.1 ++ sb "\n")

/-- Function `get_refs_advertisement` (refs.rs 20-98): the pkt-line framed
ref advertisement with a trailing flush. -/
def get_refs_advertisement (st : GitStore) (service : List Nat) : List Nat :=
  pktEncode (advLines st
    (if service = sb "git-upload-pack" then upload_caps else receive_caps)) ++ sb "0000"

/-- Body built by the `info_refs` route (routes/git.rs 610-617): service
banner pkt-line, flush, then the advertisement. -/
def info_refs_body (st : GitStore) (service : List Nat) : List Nat :=
  pktLine (sb "# service=" ++ service ++ sb "\n") ++ sb "0000" ++
    get_refs_advertisement st service

/-! ## receive-pack (`handle_receive_pack`, pack.rs 39-111). -/

/-- Rust `hex::encode` (lowercase). -/
def hexEncode (bytes : List Nat) : List Nat :=
  (bytes.map (fun b => [hexDigitByte (b / 16), hexDigitByte (b % 16)])).flatten

/-- The `PACK` signature bytes (pack.rs 40). -/
def packSig : List Nat := [0x50, 0x41, 0x43, 0x4b]

/-- Signature scan of `handle_receive_pack` (pack.rs 43-48): the first index
whose 4-byte window equals `PACK`.  The iteration bound
`0..len.saturating_sub(3)` is equivalent to requiring 4 remaining bytes. -/
def findPackGo : Nat → List Nat → Option Nat
  | _, [] => none
  | i, rem@(_ :: rest) =>
    if rem.length < 4 then none
    else if rem.take 4 = packSig then some i
    else findPackGo (i + 1) rest

/-- The position of the `PACK` signature in the body, if any. -/
def findPackStart (body : List Nat) : Option Nat := findPackGo 0 body

/-- Rust `split_whitespace` (ASCII model): maximal non-whitespace runs. -/
def splitWs (l : List Nat) : List (List Nat) :=
  (List.splitOnP isWsByte l).filter (fun s => s ≠ [])

/-- Command parsing of `handle_receive_pack` (pack.rs 61-67): lines with at
least three whitespace-separated parts whose first two parts are 40 bytes
long become `(old_oid, new_oid, refname)`; the refname is cut at the first
NUL (capability suffix). -/
def parseUpdates (lines : List (List Nat)) : List (List Nat × List Nat × List Nat) :=
  lines.filterMap (fun line =>
    match splitWs line with
    | p0 :: p1 :: p2 :: _ =>
      if p0.length = 40 ∧ p1.length = 40 then some (p0, p1, p2.takeWhile (fun b => b ≠ 0))
      else none
    | _ => none)

/-- Ref-update loop of `handle_receive_pack` (pack.rs 86-100): normalise the
refname, then delete the ref blob on the zero OID or write it otherwise. -/
def applyRefUpdates (st : GitStore) : List (List Nat × List Nat × List Nat) → GitStore
  | [] => st
  | (_oldOid, newOid, refName) :: rest =>
    let refPath := if isPre (sb "refs/") refName then refName else sb "refs/heads/" ++ refName
    let st2 :=
      if newOid = zero_oid then kvDelete st (st.pfx ++ sb "/" ++ refPath)
      else write_ref st refPath newOid
    applyRefUpdates st2 rest

/-- Status report of `handle_receive_pack` (pack.rs 102-108): `unpack ok`,
one `ok <refname>` per command, and a flush. -/
def receivePackResponse (updates : List (List Nat × List Nat × List Nat)) : List Nat :=
  pktLine (sb "unpack ok\n") ++
    (updates.map (fun u => pktLine (sb "ok " ++ u.2.2 ++ sb "\n"))).flatten ++ sb "0000"

/-- Function `handle_receive_pack` (pack.rs 39-111) over the store model:
returns the response bytes, the parsed updates and the resulting store.
`sha` abstracts the `sha1` crate; blob-store put errors are not modelled
(the error response branch at pack.rs 76-79 is unreachable here). -/
def handle_receive_pack (sha : List Nat → List Nat) (st : GitStore) (body : List Nat) :
    List Nat × List (List Nat × List Nat × List Nat) × GitStore :=
  match findPackStart body with
  | none => (sb "000eunpack ok\n0000", [], st)
  | some packStart =>
    let commandSection := body.take packStart
    let packData := body.drop packStart
    let updates := parseUpdates (parse_pkt_lines commandSection)
    let packHash := hexEncode (sha packData)
    let st1 := kvPut st (st.pfx ++ sb "/objects/pack/pack-" ++ packHash ++ sb ".pack") packData
    let st2 := match create_pack_index sha packData with
      | some idxData =>
        kvPut st1 (st.pfx ++ sb "/objects/pack/pack-" ++ packHash ++ sb ".idx") idxData
      | none => st1
    (receivePackResponse updates, updates, applyRefUpdates st2 updates)

/-! ## upload-pack front end (`handle_upload_pack`, pack.rs 5-37). -/

/-- Rust byte-indexed `str` slicing `s[a..b]`: out-of-bounds panics; the
panic is modelled as `none` (char-boundary checks coincide with byte bounds
in the ASCII model). -/
def rustSliceStr (l : List Nat) (a b : Nat) : Option (List Nat) :=
  if a ≤ b ∧ b ≤ l.length then some ((l.drop a).take (b - a)) else none

/-- The want/have extraction loop of `handle_upload_pack` (pack.rs 10-16):
`line[5..45]` of every `want `/`have ` line; `none` models the slice
panicking on a line shorter than 45 bytes. -/
def extractWantsHaves : List (List Nat) → Option (List (List Nat) × List (List Nat))
  | [] => some ([], [])
  | line :: rest =>
    if isPre (sb "want ") line then
      match rustSliceStr line 5 45 with
      | none => none
      | some oid => (extractWantsHaves rest).map (fun p => (oid :: p.1, p.2))
    else if isPre (sb "have ") line then
      match rustSliceStr line 5 45 with
      | none => none
      | some oid => (extractWantsHaves rest).map (fun p => (p.1, oid :: p.2))
    else extractWantsHaves rest

/-- Function `handle_upload_pack` (pack.rs 5-37).  Everything after the
want/have extraction (reachability walk and packfile assembly, pack.rs
22-36) is abstracted as `backend`, a function from the wants and haves to
the remaining response bytes; the `none` result models a panic in the
extraction loop. -/
def handle_upload_pack (backend : List (List Nat) → List (List Nat) → List Nat)
    (body : List Nat) : Option (List Nat) :=
  match extractWantsHaves (parse_pkt_lines body) with
  | none => none
  | some (wants, haves) =>
    if wants = [] then some (sb "0000")
    else some (backend wants haves)

/-! ## Branch metadata (api_old: `count_commits_until`, git/handler.rs
84-115, and the commit-count computation of `build_branch_metadata`,
routes/git.rs 370-401).  `get_commit_by_oid` (store lookup plus
`parse_commit`, which keeps only the first `parent` header) is abstracted as
the commit-graph oracle `g : oid → Option (commit's parent oid?)`: `none`
when the commit cannot be loaded or parsed, `some parent?` otherwise. -/

/-- The `while let Some(oid) = current` loop of `count_commits_until`
(handler.rs 90-114).  The source guard is `count >= max_steps`; here
`fuel = max_steps - count`, so fuel 0 on a live node is exactly that
guard. -/
def ccuGo (g : String → Option (Option String)) (stopOid : Option String) :
    Option String → Nat → Nat → Option Nat
  | none, count, _ => if stopOid = none then some count else none
  | some oid, count, fuel =>
    if stopOid = some oid then some count
    else
      match fuel with
      | 0 => none
      | fuel + 1 =>
        match g oid with
        | none => none
        | some parent => ccuGo g stopOid parent (count + 1) fuel

/-- Function `count_commits_until` (handler.rs 84-115). -/
def count_commits_until (g : String → Option (Option String)) (startOid : String)
    (stopOid : Option String) (maxSteps : Nat) : Option Nat :=
  ccuGo g stopOid (some startOid) 0 maxSteps

/-- Metadata row fields used by the commit-count computation
(`RepoBranchMetadataRow`). -/
structure RepoBranchMetadataRow where
  head_oid : String
  commit_count : Int

/-- Rust `"0".repeat(40)` as a `String` (routes/git.rs 383). -/
def zeroOidString : String := "0000000000000000000000000000000000000000"

/-- Commit-count computation of `build_branch_metadata` (routes/git.rs
378-396): the incremental walk when the existing row's head matches the old
OID and the old OID is non-zero, otherwise a full walk from the new OID
capped at 200 000 (0 when even that fails). -/
def build_branch_metadata_commit_count (g : String → Option (Option String))
    (old_oid new_oid : String) (existing : Option RepoBranchMetadataRow) : Int :=
  let viaIncrement : Option Int :=
    match existing with
    | some meta =>
      if meta.head_oid = old_oid ∧ old_oid ≠ zeroOidString then
        match count_commits_until g new_oid (some old_oid) 200000 with
        | some increment => some (meta.commit_count + (increment : Int))
        | none => none
      else none
    | none => none
  match viaIncrement with
  | some c => c
  | none =>
    match count_commits_until g new_oid none 200000 with
    | some total => (total : Int)
    | none => 0

/-! ## Concrete fixtures used by counterexamples and witnesses. -/

/-- Symbolic-ref chain predicate for claim C6: starting at `n`, each name in
`ms` is reached through a loose `ref: ` indirection, and the last name's
loose content is the 40-hex `oid` (the forms `resolve_ref_inner` accepts). -/
def chainHolds (st : GitStore) : List Nat → List (List Nat) → List Nat → Bool
  | n, [], oid =>
    (read_ref st n == some oid) && (oid.length == 40) && oid.all isHexDigitByte
  | n, m :: rest, oid =>
    (read_ref st n == some (sb "ref: " ++ m)) && chainHolds st m rest oid

/-- A 40-hex OID of `a` digits. -/
def oidA : List Nat := List.replicate 40 97

/-- A degenerate stand-in for the `sha1` crate used by concrete fixtures
(the settled claims do not depend on digest values). -/
def shaZero : List Nat → List Nat := fun _ => List.replicate 20 0

/-- A minimal 12-byte pack (header only), enough for `create_pack_index` to
accept (pack.rs 340-342). -/
def packC1 : List Nat := sb "PACK" ++ [0, 0, 0, 2] ++ [0, 0, 0, 1]

/-- Key of the generated index blob in the C1 fixture store. -/
def idxKeyC1 : List Nat := sb "p/objects/pack/pack-x.idx"

/-- Store holding exactly one pack index: the one `create_pack_index`
generates; no loose objects, empty cache. -/
def storeC1 : GitStore where
  pfx := sb "p"
  s3get := fun k => if k = idxKeyC1 then create_pack_index shaZero packC1 else none
  s3list := fun k => if k = sb "p/objects/pack" then [idxKeyC1] else []
  cache := fun _ => none

/-- Store with the same ref both packed (`aaaa…`) and loose (`bbbb…`):
the packed-refs precedence fixture of claim C2 / spec scenario 5. -/
def storeC2 : GitStore where
  pfx := sb "p"
  s3get := fun k =>
    if k = sb "p/packed-refs" then
      some (List.replicate 40 97 ++ sb " refs/heads/feature\n")
    else if k = sb "p/refs/heads/feature" then some (List.replicate 40 98 ++ sb "\n")
    else none
  s3list := fun k => if k = sb "p/refs/heads" then [sb "p/refs/heads/feature"] else []
  cache := fun _ => none

/-- Store whose only content is a loose ref holding a 40-hex OID that names
no stored object (claim C6's existence conjunct). -/
def storeC6 : GitStore where
  pfx := sb "p"
  s3get := fun k => if k = sb "p/refs/heads/x" then some (oidA ++ sb "\n") else none
  s3list := fun _ => []
  cache := fun _ => none

/-- Store whose HEAD is a direct OID and which has no refs at all (claim
C7's counterexample corner). -/
def storeC7 : GitStore where
  pfx := sb "p"
  s3get := fun k => if k = sb "p/HEAD" then some (oidA ++ sb "\n") else none
  s3list := fun _ => []
  cache := fun _ => none

/-- Store with HEAD → refs/heads/main and one loose branch ref (claim C7's
witness repository). -/
def storeC7w : GitStore where
  pfx := sb "p"
  s3get := fun k =>
    if k = sb "p/HEAD" then some (sb "ref: refs/heads/main\n")
    else if k = sb "p/refs/heads/main" then some (oidA ++ sb "\n")
    else none
  s3list := fun k => if k = sb "p/refs/heads" then [sb "p/refs/heads/main"] else []
  cache := fun _ => none

/-- Three-commit chain c3 → c2 → c1 → (root) as a commit-graph oracle
(claim C8's witness). -/
def gC8 : String → Option (Option String) := fun s =>
  if s = "c3" then some (some "c2")
  else if s = "c2" then some (some "c1")
  else if s = "c1" then some none
  else none

/-! ## Theorems. -/

/-- C4: during cross-pack REF_DELTA resolution a failing delta is expected
to make resolution yield none; instead `apply_delta_chain` skips the failed
delta and keeps the unmodified base.  Evaluated at a corrupt delta
`[2, 5, 0]` (valid size varints, then the reserved 0x00 command, so
`apply_delta` rejects it): the chain replay returns the base content
unchanged rather than failing — its result type has no failure case at
all. -/
theorem c4_chain_skips_failed_delta :
    apply_delta [104, 105] [2, 5, 0] = none ∧
    apply_delta_chain (sb "blob", [104, 105]) [(oidA, [2, 5, 0])] = (sb "blob", [104, 105]) := by
  decide

/-- C10: `handle_upload_pack` is claimed never to panic, the 5..45 slice of
every want/have line staying in bounds.  The body consisting of the single
pkt-line `want abc` (12 bytes, line length 8 < 45) parses to that line, and
the extraction's `line[5..45]` is out of bounds: the modelled function
returns the panic marker `none` for every backend. -/
theorem c10_upload_pack_slice_panics :
    handle_upload_pack (fun _ _ => []) (sb "000cwant abc") = none ∧
    parse_pkt_lines (sb "000cwant abc") = [sb "want abc"] := by
  decide

/-- C2: for a ref present both in packed-refs (oid `aaaa…`) and as a loose
ref (oid `bbbb…`), `list_refs` is claimed to return the loose OID.  The
code pushes packed entries first and skips a loose ref whose name is already
present, so the packed OID wins — while `read_ref`/`resolve_ref` on the same
store return the loose OID, contradicting both the claim and the resolver's
own precedence. -/
theorem c2_packed_wins_over_loose :
    list_refs storeC2 (sb "refs/heads") =
      [(sb "refs/heads/feature", List.replicate 40 97)] ∧
    read_ref storeC2 (sb "refs/heads/feature") = some (List.replicate 40 98) ∧
    resolve_ref storeC2 (sb "refs/heads/feature") = some (List.replicate 40 98) := by
  decide

/-- C5: a request body with no `PACK` signature makes `handle_receive_pack`
return exactly the bytes `000eunpack ok\n0000` with no parsed updates and
the store unchanged (the early return at pack.rs 50-53 precedes every
write). -/
theorem c5_no_pack_signature_is_noop (sha : List Nat → List Nat) (st : GitStore)
    (body : List Nat) (h : findPackStart body = none) :
    handle_receive_pack sha st body = (sb "000eunpack ok\n0000", [], st) := by
  unfold handle_receive_pack
  rw [h]

/-- Witness for C5 at the concrete body `hello`, which contains no `PACK`
signature. -/
theorem c5_witness :
    findPackStart (sb "hello") = none ∧
    handle_receive_pack shaZero storeC2 (sb "hello") = (sb "000eunpack ok\n0000", [], storeC2) :=
  ⟨by decide, c5_no_pack_signature_is_noop shaZero storeC2 (sb "hello") (by decide)⟩

/-- C6 counterexample: the claim also asserts the resolved OID names an
existing object.  In `storeC6` the ref `refs/heads/x` is a chain of zero
indirections ending at the 40-hex OID `aaaa…`; `resolve_ref` returns it,
yet `get_object` on that OID fails — the resolver never checks object
existence. -/
theorem c6_counterexample :
    chainHolds storeC6 (sb "refs/heads/x") [] oidA = true ∧
    resolve_ref storeC6 (sb "refs/heads/x") = some oidA ∧
    get_object storeC6 (fun _ _ _ => none) (fun _ _ => none) oidA = none := by
  decide

set_option maxRecDepth 4000 in
/-- C7 counterexample: in `storeC7` HEAD resolves (to the direct OID
`aaaa…`) but there are no refs, so the advertised first pkt-line after the
banner and flush is the zero-OID `capabilities^\x7b\x7d` pseudo-ref, not
`<H> HEAD\x00…` as the claim requires for every repository whose HEAD
resolves (byte 38 is where that pkt-line's content starts). -/
theorem c7_counterexample :
    resolve_ref storeC7 (sb "HEAD") = some oidA ∧
    advRefs storeC7 = [] ∧
    isPre (oidA ++ sb " HEAD") ((info_refs_body storeC7 (sb "git-upload-pack")).drop 38) = false ∧
    isPre (zero_oid ++ sb " capabilities")
      ((info_refs_body storeC7 (sb "git-upload-pack")).drop 38) = true := by
  decide

/-- Any position of an all-zero replicate reads as 0 under the default 0. -/
theorem replicate_getD_zero (n q : Nat) : (List.replicate n 0).getD q 0 = 0 := by
  rcases Nat.lt_or_ge q n with h | h
  · simp [List.getD_eq_getElem?_getD, List.getElem?_replicate, h]
  · simp [List.getD_eq_getElem?_getD, List.getElem?_replicate, Nat.not_lt.mpr h]

/-- Bytes 8..1031 of a generated minimal index are the all-zero fanout. -/
theorem minIdx_getD_zero (tail : List Nat) (p : Nat) (h1 : 8 ≤ p) (h2 : p < 1032) :
    (([0xff, 0x74, 0x4f, 0x63, 0, 0, 0, 2] : List Nat) ++
      (List.replicate (256 * 4) 0 ++ tail)).getD p 0 = 0 := by
  rw [List.getD_append_right _ _ _ _ (by simp; omega),
    List.getD_append _ _ _ _ (by rw [List.length_replicate]; simp; omega)]
  exact replicate_getD_zero _ _

/-- Any big-endian u32 read inside the zero fanout region of a generated
minimal index is 0. -/
theorem minIdx_be32_zero (tail : List Nat) (p : Nat) (h1 : 8 ≤ p) (h2 : p + 3 < 1032) :
    be32 (([0xff, 0x74, 0x4f, 0x63, 0, 0, 0, 2] : List Nat) ++
      (List.replicate (256 * 4) 0 ++ tail)) p = 0 := by
  unfold be32
  rw [minIdx_getD_zero tail p h1 (by omega), minIdx_getD_zero tail (p + 1) (by omega) (by omega),
    minIdx_getD_zero tail (p + 2) (by omega) (by omega),
    minIdx_getD_zero tail (p + 3) (by omega) (by omega)]
  decide

/-- Core of claim C1: a `find_object_in_index` lookup against a generated
minimal index (magic, version 2, all-zero fanout, any 40-byte trailer) finds
nothing, whatever the target OID: the all-zero fanout brackets every search
to the empty range `[0, 0)`. -/
theorem find_minimal_idx_none (tail target : List Nat) (hlen : target.length = 20)
    (hbytes : ∀ b ∈ target, b < 256) :
    find_object_in_index
      (([0xff, 0x74, 0x4f, 0x63, 0, 0, 0, 2] : List Nat) ++
        (List.replicate (256 * 4) 0 ++ tail)) target = none := by
  have hL : (([0xff, 0x74, 0x4f, 0x63, 0, 0, 0, 2] : List Nat) ++
      (List.replicate (256 * 4) 0 ++ tail)).length = 1032 + tail.length := by
    simp only [List.length_append, List.length_replicate, List.length_cons, List.length_nil]
    omega
  have hfb : target.headD 0 < 256 := by
    cases target with
    | nil => simp at hlen
    | cons b bs => exact hbytes b (by simp)
  have hb4 : be32 (([0xff, 0x74, 0x4f, 0x63, 0, 0, 0, 2] : List Nat) ++
      (List.replicate (256 * 4) 0 ++ tail)) 4 = 2 := by
    have g : ∀ p, p < 8 → ((([0xff, 0x74, 0x4f, 0x63, 0, 0, 0, 2] : List Nat) ++
        (List.replicate (256 * 4) 0 ++ tail)).getD p 0)
        = ([0xff, 0x74, 0x4f, 0x63, 0, 0, 0, 2] : List Nat).getD p 0 :=
      fun p hp => List.getD_append _ _ _ _ (by simp; omega)
    unfold be32
    rw [g 4 (by omega), g 5 (by omega), g 6 (by omega), g 7 (by omega)]
    decide
  have hSI : (if target.headD 0 = 0 then 0
      else be32 (([0xff, 0x74, 0x4f, 0x63, 0, 0, 0, 2] : List Nat) ++
        (List.replicate (256 * 4) 0 ++ tail)) (8 + (target.headD 0 - 1) * 4)) = 0 := by
    by_cases h0 : target.headD 0 = 0
    · rw [if_pos h0]
    · rw [if_neg h0]
      exact minIdx_be32_zero tail _ (by omega) (by omega)
  have hEI : be32 (([0xff, 0x74, 0x4f, 0x63, 0, 0, 0, 2] : List Nat) ++
      (List.replicate (256 * 4) 0 ++ tail)) (8 + target.headD 0 * 4) = 0 :=
    minIdx_be32_zero tail _ (by omega) (by omega)
  unfold find_object_in_index
  rw [if_neg (by rw [hL, hlen]; omega)]
  rw [if_neg (by rw [List.take_append_of_le_length (by simp)]; exact fun h => h rfl)]
  rw [if_neg (by rw [hb4]; omega)]
  rw [if_neg (by rw [hL]; omega)]
  simp only [hSI, hEI]
  rfl

/-- Shape of a generated minimal index: magic and version flattened, then
the zero fanout, then the two SHA-1 trailers. -/
theorem create_pack_index_some (sha : List Nat → List Nat) (packData : List Nat)
    (h12 : 12 ≤ packData.length) :
    create_pack_index sha packData =
      some (([0xff, 0x74, 0x4f, 0x63, 0, 0, 0, 2] : List Nat) ++
        (List.replicate (256 * 4) 0 ++
          (sha packData ++
            sha ([0xff, 0x74, 0x4f, 0x63] ++ ([0, 0, 0, 2] ++ (List.replicate (256 * 4) 0 ++
              sha packData)))))) := by
  unfold create_pack_index
  rw [if_neg (by omega)]
  simp only [List.append_assoc]
  exact rfl

/-- Value of one hex digit is below 16. -/
theorem hexVal_lt (b v : Nat) (h : hexVal b = some v) : v < 16 := by
  unfold hexVal at h
  split_ifs at h <;> simp_all <;> omega

/-- Decoded hex has half the input's length. -/
theorem hexDecode_length (s : List Nat) :
    ∀ t, hexDecode s = some t → s.length = 2 * t.length := by
  induction s using hexDecode.induct with
  | case1 =>
    intro t h
    simp [hexDecode] at h
    subst h
    rfl
  | case2 hd =>
    intro t h
    simp [hexDecode] at h
  | case3 a b rest va vb hvb hva tl hrest ih =>
    intro t h
    simp [hexDecode, hva, hvb, hrest] at h
    have hlen := ih tl hrest
    rw [← h]
    simp
    omega
  | case4 a b rest va vb hvb hva hrest ih =>
    intro t h
    simp [hexDecode, hva, hvb, hrest] at h
  | case5 a b rest hcontra =>
    intro t h
    rcases hva : hexVal a with _ | va
    · simp [hexDecode, hva] at h
    · rcases hvb : hexVal b with _ | vb
      · simp [hexDecode, hva, hvb] at h
      · exact (hcontra va vb hva hvb).elim

/-- Decoded hex consists of bytes. -/
theorem hexDecode_lt_256 (s : List Nat) :
    ∀ t, hexDecode s = some t → ∀ x ∈ t, x < 256 := by
  induction s using hexDecode.induct with
  | case1 =>
    intro t h
    simp [hexDecode] at h
    subst h
    simp
  | case2 hd =>
    intro t h
    simp [hexDecode] at h
  | case3 a b rest va vb hvb hva tl hrest ih =>
    intro t h
    simp [hexDecode, hva, hvb, hrest] at h
    intro x hx
    rw [← h] at hx
    rcases List.mem_cons.mp hx with h1 | h2
    · have := hexVal_lt a va hva
      have := hexVal_lt b vb hvb
      omega
    · exact ih tl hrest x h2
  | case4 a b rest va vb hvb hva hrest ih =>
    intro t h
    simp [hexDecode, hva, hvb, hrest] at h
  | case5 a b rest hcontra =>
    intro t h
    rcases hva : hexVal a with _ | va
    · simp [hexDecode, hva] at h
    · rcases hvb : hexVal b with _ | vb
      · simp [hexDecode, hva, hvb] at h
      · exact (hcontra va vb hva hvb).elim

/-- When every listed index blob defeats the lookup, the pack loop of
`get_from_pack` finds nothing. -/
theorem gfpLoop_none (st : GitStore) (ex : List Nat → List Nat → Nat → Option (List Nat))
    (rd : List Nat → Nat → Option (List Nat)) (target : List Nat) :
    ∀ files, (∀ k ∈ files, ∀ idxData, st.s3get k = some idxData →
      find_object_in_index idxData target = none) →
    gfpLoop st ex rd target files = none := by
  intro files
  induction files with
  | nil => intro _; rfl
  | cons k rest ih =>
    intro h
    have hrest : ∀ k2 ∈ rest, ∀ idxData, st.s3get k2 = some idxData →
        find_object_in_index idxData target = none :=
      fun k2 hk2 => h k2 (by simp [hk2])
    cases hsk : st.s3get k with
    | none => simp [gfpLoop, hsk]; exact ih hrest
    | some idxData =>
      have hf := h k (by simp) idxData hsk
      simp [gfpLoop, hsk, hf]
      exact ih hrest

/-- C1: the claim says objects in a pack persisted by receive-pack are
reachable through `get_object` because lookup "falls back to scanning the
pack" when the generated index's fanout is all-zero.  No such fallback
exists: `find_object_in_index` brackets its search by the fanout, which the
generated index zero-fills, so the lookup fails for every OID, and
`get_from_pack` consults only that lookup — whatever the delta-resolution
helpers `ex`/`rd` would do.  For any store whose listed pack indices all
hold the generated minimal index and which has no cached or loose copy of
the object, `get_object` returns none. -/
theorem c1_generated_index_defeats_lookup
    (sha : List Nat → List Nat)
    (ex : List Nat → List Nat → Nat → Option (List Nat))
    (rd : List Nat → Nat → Option (List Nat))
    (st : GitStore) (packData oid target : List Nat)
    (h12 : 12 ≤ packData.length)
    (htd : hexDecode oid = some target)
    (holen : oid.length = 40)
    (hcache : st.cache oid = none)
    (hloose : st.s3get (object_path st oid) = none)
    (hidx : ∀ k ∈ get_pack_idx_files st, st.s3get k = create_pack_index sha packData) :
    (∃ idxData, create_pack_index sha packData = some idxData ∧
      find_object_in_index idxData target = none) ∧
    get_object st ex rd oid = none := by
  have hlen20 : target.length = 20 := by
    have := hexDecode_length oid target htd
    omega
  have hbytes : ∀ b ∈ target, b < 256 := hexDecode_lt_256 oid target htd
  have hfind := find_minimal_idx_none
    (sha packData ++ sha ([0xff, 0x74, 0x4f, 0x63] ++ ([0, 0, 0, 2] ++
      (List.replicate (256 * 4) 0 ++ sha packData)))) target hlen20 hbytes
  constructor
  · exact ⟨_, create_pack_index_some sha packData h12, hfind⟩
  · unfold get_object
    rw [hcache, hloose]
    unfold get_from_pack
    rw [htd]
    apply gfpLoop_none
    intro k hk idxData hsk
    rw [hidx k hk, create_pack_index_some sha packData h12] at hsk
    have : idxData = ([0xff, 0x74, 0x4f, 0x63, 0, 0, 0, 2] : List Nat) ++
        (List.replicate (256 * 4) 0 ++
          (sha packData ++ sha ([0xff, 0x74, 0x4f, 0x63] ++ ([0, 0, 0, 2] ++
            (List.replicate (256 * 4) 0 ++ sha packData))))) := by
      exact (Option.some.inj hsk).symm
    rw [this]
    exact hfind

set_option maxRecDepth 40000 in
/-- Witness for C1: the concrete store holding the 12-byte pack `packC1`
and its generated minimal index; the 40-`a` OID decodes fine, yet
`get_object` fails. -/
theorem c1_witness :
    (∃ idxData, create_pack_index shaZero packC1 = some idxData ∧
      find_object_in_index idxData (List.replicate 20 170) = none) ∧
    get_object storeC1 (fun _ _ _ => none) (fun _ _ => none) oidA = none :=
  c1_generated_index_defeats_lookup shaZero (fun _ _ _ => none) (fun _ _ => none) storeC1
    packC1 oidA (List.replicate 20 170) (by decide) (by decide) (by decide) (by decide)
    (by decide) (by decide)

/-- Prefix test succeeds on an appended prefix. -/
theorem isPre_append (p r : List Nat) : isPre p (p ++ r) = true := by
  induction p with
  | nil => rfl
  | cons a ps ih => simp [isPre, ih]

/-- Stripping an appended prefix returns the remainder. -/
theorem stripPre_append (p r : List Nat) : stripPre p (p ++ r) = some r := by
  unfold stripPre
  rw [if_pos (isPre_append p r), List.drop_left]

/-- A 40-hex ref content never starts with `ref: ` (its first byte is a hex
digit, `r` is not). -/
theorem isPre_ref_hex_false (oid : List Nat) (hhex : oid.all isHexDigitByte = true)
    (hlen : oid.length = 40) : isPre (sb "ref: ") oid = false := by
  cases oid with
  | nil => simp at hlen
  | cons b bs =>
    simp [List.all_cons] at hhex
    have hb := hhex.1
    have e : sb "ref: " = [114, 101, 102, 58, 32] := by decide
    rw [e]
    simp [isPre]
    intro hb114
    rw [← hb114] at hb
    simp [isHexDigitByte] at hb

/-- Walking a loose symbolic chain: with `fuel = 11 - depth`, resolution
succeeds exactly when the chain needs fewer indirections than the fuel
allows. -/
theorem resolveRefGo_chain (st : GitStore) :
    ∀ (ms : List (List Nat)) (n oid : List Nat) (fuel : Nat),
    chainHolds st n ms oid = true →
    (ms.length < fuel → resolveRefGo st fuel n = some oid) ∧
    (fuel ≤ ms.length → resolveRefGo st fuel n = none) := by
  intro ms
  induction ms with
  | nil =>
    intro n oid fuel hch
    simp [chainHolds] at hch
    obtain ⟨⟨hrr, hlen⟩, hhex⟩ := hch
    have hall : oid.all isHexDigitByte = true := by simpa using hhex
    constructor
    · intro hf
      cases fuel with
      | zero => omega
      | succ f =>
        simp [resolveRefGo, hrr, isPre_ref_hex_false oid hall hlen, hlen, hall]
    · intro hf
      have h0 : fuel = 0 := by simp at hf; omega
      subst h0
      rfl
  | cons m rest ih =>
    intro n oid fuel hch
    simp [chainHolds] at hch
    obtain ⟨hrr, hrest⟩ := hch
    constructor
    · intro hf
      cases fuel with
      | zero => simp at hf
      | succ f =>
        have hnext := (ih m oid f hrest).1 (by simp at hf; omega)
        simp [resolveRefGo, hrr, isPre_append, stripPre_append]
        exact hnext
    · intro hf
      cases fuel with
      | zero => rfl
      | succ f =>
        have hnext := (ih m oid f hrest).2 (by simp at hf; omega)
        simp [resolveRefGo, hrr, isPre_append, stripPre_append]
        exact hnext

/-- C6 (amended): along a loose symbolic chain of `ms.length` indirections
ending at a 40-hex OID, `resolve_ref` returns that OID when the chain has
at most 10 indirections and none when it has 11 or more; whether the OID
names an existing object is not checked (see the counterexample). -/
theorem c6_resolve_ref_depth_bound (st : GitStore) (n oid : List Nat) (ms : List (List Nat))
    (hch : chainHolds st n ms oid = true) :
    (ms.length ≤ 10 → resolve_ref st n = some oid) ∧
    (11 ≤ ms.length → resolve_ref st n = none) := by
  unfold resolve_ref
  exact ⟨fun h => (resolveRefGo_chain st ms n oid 11 hch).1 (by omega),
    fun h => (resolveRefGo_chain st ms n oid 11 hch).2 (by omega)⟩

/-- Witness for C6 at the zero-indirection chain of `storeC6`. -/
theorem c6_witness : resolve_ref storeC6 (sb "refs/heads/x") = some oidA :=
  (c6_resolve_ref_depth_bound storeC6 (sb "refs/heads/x") oidA [] (by decide)).1 (by decide)

/-- Appending after an encoded head line re-associates. -/
theorem pktEncode_cons_append (x : List Nat) (l : List (List Nat)) (t : List Nat) :
    pktEncode (x :: l) ++ t = pktLine x ++ (pktEncode l ++ t) := by
  simp [pktEncode, List.append_assoc]

/-- C7 (amended): the upload-pack info/refs body is the service banner, a
flush, then the advertisement; when HEAD resolves to `h` AND at least one
ref is advertised, the advertisement starts with the pkt-line
`<h> HEAD\x00<caps>`; when there are no refs it is the single zero-OID
`capabilities^\x7b\x7d` pkt-line and a flush; the upload-pack capabilities
contain `symref=HEAD:refs/heads/main`.  (The nonempty-refs condition is the
correction: the code branches on the ref list being empty, not on HEAD
resolvability — see the counterexample.) -/
theorem c7_head_first_advertised (st : GitStore) (h : List Nat) :
    (info_refs_body st (sb "git-upload-pack") =
      pktLine (sb "# service=git-upload-pack\n") ++ sb "0000" ++
        get_refs_advertisement st (sb "git-upload-pack")) ∧
    (resolve_ref st (sb "HEAD") = some h → advRefs st ≠ [] →
      ∃ rest, get_refs_advertisement st (sb "git-upload-pack") =
        pktLine (h ++ sb " HEAD\x00" ++ upload_caps ++ sb "\n") ++ rest) ∧
    (advRefs st = [] →
      get_refs_advertisement st (sb "git-upload-pack") =
        pktLine (zero_oid ++ sb " capabilities^\x7b\x7d\x00" ++ upload_caps ++ sb "\n") ++
          sb "0000") ∧
    containsSub (sb "symref=HEAD:refs/heads/main") upload_caps = true := by
  have e3 : ∀ X : List Nat, sb " " ++ (sb "HEAD" ++ (sb "\x00" ++ X)) = sb " HEAD\x00" ++ X := by
    intro X
    rw [← List.append_assoc, ← List.append_assoc]
    have e2 : (sb " " ++ sb "HEAD") ++ sb "\x00" = sb " HEAD\x00" := by decide
    rw [e2]
  have hline : h ++ sb " " ++ sb "HEAD" ++ sb "\x00" ++ upload_caps ++ sb "\n"
      = h ++ sb " HEAD\x00" ++ upload_caps ++ sb "\n" := by
    simp only [List.append_assoc]
    rw [e3]
  refine ⟨rfl, ?_, ?_, by decide⟩
  · intro hres hne
    have hfr : advFirstRef st = (sb "HEAD", h) := by
      unfold advFirstRef
      rw [hres]
    unfold get_refs_advertisement advLines
    rw [if_pos rfl, if_neg hne]
    simp only [hfr]
    rw [hline]
    exact ⟨_, pktEncode_cons_append (h ++ sb " HEAD\x00" ++ upload_caps ++ sb "\n")
      (((advRefs st).filter
        (fun p : List Nat × List Nat =>
          p.1 ≠ sb "HEAD" ∨ resolve_ref st (sb "HEAD") = none)).map
        (fun p : List Nat × List Nat => p.2 ++ sb " " ++ p.1 ++ sb "\n")) (sb "0000")⟩
  · intro he
    unfold get_refs_advertisement advLines
    rw [if_pos rfl, if_pos he]
    exact pktEncode_cons_append
      (zero_oid ++ sb " capabilities^\x7b\x7d\x00" ++ upload_caps ++ sb "\n") [] (sb "0000")

/-- Witness for C7 at `storeC7w`, whose HEAD resolves through
refs/heads/main and which advertises one ref. -/
theorem c7_witness :
    ∃ rest, get_refs_advertisement storeC7w (sb "git-upload-pack") =
      pktLine (oidA ++ sb " HEAD\x00" ++ upload_caps ++ sb "\n") ++ rest :=
  (c7_head_first_advertised storeC7w oidA).2.1 (by decide) (by decide)

/-- The fused instruction loop of `apply_delta` computes exactly what the
spec-side decode/check/execute pipeline computes: parse failure or an
out-of-bounds COPY yields none, otherwise the concatenation of the executed
instructions appended to the accumulator. -/
theorem applyDeltaGo_eq_parse (base : List Nat) :
    ∀ (fuel : Nat) (rem acc : List Nat),
    applyDeltaGo base fuel rem acc =
      match parseDeltaInsts fuel rem with
      | none => none
      | some insts =>
        if insts.all (instOk base.length) then
          some (acc ++ (insts.map (execInst base)).flatten)
        else none := by
  intro fuel
  induction fuel with
  | zero =>
    intro rem acc
    cases rem with
    | nil => simp [applyDeltaGo, parseDeltaInsts]
    | cons cmd rest => simp [applyDeltaGo, parseDeltaInsts]
  | succ f ih =>
    intro rem acc
    cases rem with
    | nil => simp [applyDeltaGo, parseDeltaInsts]
    | cons cmd rest =>
      simp only [applyDeltaGo, parseDeltaInsts]
      by_cases h80 : cmd &&& 0x80 ≠ 0
      · rw [if_pos h80, if_pos h80]
        by_cases hb : (readCopyArgs cmd rest).1 + (readCopyArgs cmd rest).2.1 > base.length
        · rw [if_pos hb]
          cases hp : parseDeltaInsts f (readCopyArgs cmd rest).2.2 with
          | none => simp
          | some l =>
            have hnotok : ¬((readCopyArgs cmd rest).1 + (readCopyArgs cmd rest).2.1
                ≤ base.length) := by omega
            simp [instOk, hnotok]
        · rw [if_neg hb]
          rw [ih (readCopyArgs cmd rest).2.2
            (acc ++ (base.drop (readCopyArgs cmd rest).1).take (readCopyArgs cmd rest).2.1)]
          cases hp : parseDeltaInsts f (readCopyArgs cmd rest).2.2 with
          | none => simp [hp]
          | some l =>
            have hok : (readCopyArgs cmd rest).1 + (readCopyArgs cmd rest).2.1
                ≤ base.length := by omega
            by_cases ha : l.all (instOk base.length) = true
            · simp [hp, ha, instOk, hok, execInst, List.append_assoc]
            · simp [hp, ha, instOk, hok]
      · rw [if_neg h80, if_neg h80]
        by_cases hz : cmd ≠ 0
        · rw [if_pos hz, if_pos hz]
          by_cases hlen : cmd > rest.length
          · rw [if_pos hlen, if_pos hlen]
          · rw [if_neg hlen, if_neg hlen]
            rw [ih (rest.drop cmd) (acc ++ rest.take cmd)]
            cases hp : parseDeltaInsts f (rest.drop cmd) with
            | none => simp [hp]
            | some l =>
              by_cases ha : l.all (instOk base.length) = true
              · simp [hp, ha, instOk, execInst, List.append_assoc]
              · simp [hp, ha, instOk]
        · rw [if_neg hz, if_neg hz]

/-- C3: `apply_delta` returns a result exactly under the claimed conditions
(size varints parse, no 0x00 instruction, INSERT literals inside the delta,
every COPY within the base after the zero-size-is-0x10000 and
absent-bytes-default-0 rules, output length equal to the declared target
size), and the result is that execution — `spec_apply_delta` is the
spec-side decode/check/execute reference.  Length-exactness follows:
a produced result's length is the delta's declared target size. -/
theorem c3_apply_delta_matches_spec (base delta : List Nat) :
    apply_delta base delta = spec_apply_delta base delta ∧
    ∀ result, apply_delta base delta = some result →
      delta_target_size delta = some result.length := by
  have hmain : apply_delta base delta = spec_apply_delta base delta := by
    cases h1 : read_varint delta with
    | none => simp [apply_delta, spec_apply_delta, h1]
    | some p1 =>
      obtain ⟨src, r1⟩ := p1
      cases h2 : read_varint r1 with
      | none => simp [apply_delta, spec_apply_delta, h1, h2]
      | some p2 =>
        obtain ⟨dst, r2⟩ := p2
        have hgo := applyDeltaGo_eq_parse base r2.length r2 []
        cases hp : parseDeltaInsts r2.length r2 with
        | none =>
          rw [hp] at hgo
          simp [apply_delta, spec_apply_delta, h1, h2, hp, hgo]
        | some insts =>
          rw [hp] at hgo
          by_cases ha : insts.all (instOk base.length) = true
          · simp [apply_delta, spec_apply_delta, h1, h2, hp, hgo, ha]
          · simp [apply_delta, spec_apply_delta, h1, h2, hp, hgo, ha]
  refine ⟨hmain, ?_⟩
  intro result hres
  rw [hmain] at hres
  cases h1 : read_varint delta with
  | none => simp [spec_apply_delta, h1] at hres
  | some p1 =>
    obtain ⟨src, r1⟩ := p1
    cases h2 : read_varint r1 with
    | none => simp [spec_apply_delta, h1, h2] at hres
    | some p2 =>
      obtain ⟨dst, r2⟩ := p2
      cases hp : parseDeltaInsts r2.length r2 with
      | none => simp [spec_apply_delta, h1, h2, hp] at hres
      | some insts =>
        by_cases ha : insts.all (instOk base.length) = true
        · simp [spec_apply_delta, h1, h2, hp, ha] at hres
          obtain ⟨hsum, hr⟩ := hres
          simp [delta_target_size, h1, h2, ← hr]
          exact hsum.symm
        · simp [spec_apply_delta, h1, h2, hp, ha] at hres

/-- Witness for C3 at the concrete delta `[0, 2, 2, 104, 105]` (source size
0, target size 2, one INSERT of two bytes): the produced result has the
declared target length. -/
theorem c3_witness : delta_target_size [0, 2, 2, 104, 105] = some 2 :=
  (c3_apply_delta_matches_spec [] [0, 2, 2, 104, 105]).2 [104, 105] (by decide)

/-- One step of the commit walk on a live non-stop node whose lookup fails. -/
theorem ccuGo_step_none (g : String → Option (Option String)) (stopOid : Option String)
    (oid : String) (c f : Nat) (hs : ¬stopOid = some oid) (hg : g oid = none) :
    ccuGo g stopOid (some oid) c (f + 1) = none := by
  simp [ccuGo, hs, hg]

/-- One step of the commit walk on a live non-stop node with a parent. -/
theorem ccuGo_step_some (g : String → Option (Option String)) (stopOid : Option String)
    (oid : String) (c f : Nat) (parent : Option String)
    (hs : ¬stopOid = some oid) (hg : g oid = some parent) :
    ccuGo g stopOid (some oid) c (f + 1) = ccuGo g stopOid parent (c + 1) f := by
  simp [ccuGo, hs, hg]

/-- The count accumulator of the commit walk is a pure offset. -/
theorem ccuGo_count_shift (g : String → Option (Option String)) (stopOid : Option String) :
    ∀ (fuel : Nat) (cur : Option String) (c : Nat),
    ccuGo g stopOid cur c fuel = (ccuGo g stopOid cur 0 fuel).map (· + c) := by
  intro fuel
  induction fuel with
  | zero =>
    intro cur c
    cases cur with
    | none =>
      by_cases hs : stopOid = none
      · simp [ccuGo, hs]
      · simp [ccuGo, hs]
    | some oid =>
      by_cases hs : stopOid = some oid
      · simp [ccuGo, hs]
      · simp [ccuGo, hs]
  | succ f ih =>
    intro cur c
    cases cur with
    | none =>
      by_cases hs : stopOid = none
      · simp [ccuGo, hs]
      · simp [ccuGo, hs]
    | some oid =>
      by_cases hs : stopOid = some oid
      · simp [ccuGo, hs]
      · rcases hg : g oid with _ | parent
        · rw [ccuGo_step_none g stopOid oid c f hs hg,
            ccuGo_step_none g stopOid oid 0 f hs hg]
          simp
        · rw [ccuGo_step_some g stopOid oid c f parent hs hg,
            ccuGo_step_some g stopOid oid 0 f parent hs hg, ih parent (c + 1), ih parent 1]
          cases ccuGo g stopOid parent 0 f with
          | none => simp
          | some r => simp; omega

/-- Walking without a stop OID is insensitive to extra fuel: a walk that
finishes with result `r` used at most `r` fuel. -/
theorem ccuGo_none_mono (g : String → Option (Option String)) :
    ∀ (fuel : Nat) (cur : Option String) (r : Nat),
    ccuGo g none cur 0 fuel = some r →
    ∀ fuel2, r ≤ fuel2 → ccuGo g none cur 0 fuel2 = some r := by
  intro fuel
  induction fuel with
  | zero =>
    intro cur r h fuel2 hr
    cases cur with
    | none =>
      simp [ccuGo] at h
      subst h
      cases fuel2 with
      | zero => rfl
      | succ f2 => rfl
    | some oid => simp [ccuGo] at h
  | succ f ih =>
    intro cur r h fuel2 hr
    cases cur with
    | none =>
      simp [ccuGo] at h
      subst h
      cases fuel2 with
      | zero => rfl
      | succ f2 => rfl
    | some oid =>
      have hs : ¬(none : Option String) = some oid := by simp
      rcases hg : g oid with _ | parent
      · rw [ccuGo_step_none g none oid 0 f hs hg] at h
        simp at h
      · rw [ccuGo_step_some g none oid 0 f parent hs hg,
          ccuGo_count_shift g none f parent 1] at h
        cases hrec : ccuGo g none parent 0 f with
        | none => rw [hrec] at h; simp at h
        | some r0 =>
          rw [hrec] at h
          simp at h
          cases fuel2 with
          | zero => omega
          | succ f2 =>
            have hnext := ih parent r0 hrec f2 (by omega)
            rw [ccuGo_step_some g none oid 0 f2 parent hs hg,
              ccuGo_count_shift g none f2 parent 1, hnext]
            simp
            omega

/-- Additivity of the stopped and unstopped walks: if the stopped walk from
`cur` reaches the stop OID after `d` steps and the unstopped walk from the
stop OID finishes with `L`, the unstopped walk from `cur` finishes with
`d + L` given enough fuel. -/
theorem ccuGo_additive (g : String → Option (Option String)) (oldOid : String) :
    ∀ (fuel : Nat) (cur : Option String) (d : Nat),
    ccuGo g (some oldOid) cur 0 fuel = some d →
    ∀ (fuelL L : Nat), ccuGo g none (some oldOid) 0 fuelL = some L →
    ∀ fuel2, d + L ≤ fuel2 → ccuGo g none cur 0 fuel2 = some (d + L) := by
  intro fuel
  induction fuel with
  | zero =>
    intro cur d h fuelL L hL fuel2 hle
    cases cur with
    | none => simp [ccuGo] at h
    | some oid =>
      by_cases hs : oldOid = oid
      · subst hs
        simp [ccuGo] at h
        subst h
        simp only [Nat.zero_add]
        exact ccuGo_none_mono g fuelL (some oldOid) L hL fuel2 (by omega)
      · have hs2 : ¬(some oldOid : Option String) = some oid := by simp [hs]
        simp [ccuGo, hs2] at h
  | succ f ih =>
    intro cur d h fuelL L hL fuel2 hle
    cases cur with
    | none => simp [ccuGo] at h
    | some oid =>
      by_cases hs : oldOid = oid
      · subst hs
        simp [ccuGo] at h
        subst h
        simp only [Nat.zero_add]
        exact ccuGo_none_mono g fuelL (some oldOid) L hL fuel2 (by omega)
      · have hs2 : ¬(some oldOid : Option String) = some oid := by simp [hs]
        have hsn : ¬(none : Option String) = some oid := by simp
        rcases hg : g oid with _ | parent
        · rw [ccuGo_step_none g (some oldOid) oid 0 f hs2 hg] at h
          simp at h
        · rw [ccuGo_step_some g (some oldOid) oid 0 f parent hs2 hg,
            ccuGo_count_shift g (some oldOid) f parent 1] at h
          cases hrec : ccuGo g (some oldOid) parent 0 f with
          | none => rw [hrec] at h; simp at h
          | some d0 =>
            rw [hrec] at h
            simp at h
            cases fuel2 with
            | zero => omega
            | succ f2 =>
              have hnext := ih parent d0 hrec fuelL L hL f2 (by omega)
              rw [ccuGo_step_some g none oid 0 f2 parent hsn hg,
                ccuGo_count_shift g none f2 parent 1, hnext]
              simp
              omega

/-- C8: commit-count incrementality and the metadata dichotomy.  When the
stopped walk from `newOid` reaches `oldOid` within the step bound, (i)
`count_commits_until` is additive — the stopped count plus the full count
from `oldOid` equals the full count from `newOid` — and (ii)
`build_branch_metadata`'s commit count is the existing row's count plus the
stopped count exactly when the row's head equals the (non-zero) old OID,
and the capped full-walk count from `newOid` otherwise. -/
theorem c8_commit_count_incremental (g : String → Option (Option String))
    (newOid oldOid : String) (maxSteps d L : Nat) (meta : RepoBranchMetadataRow) :
    (count_commits_until g newOid (some oldOid) maxSteps = some d →
     count_commits_until g oldOid none maxSteps = some L →
     d + L ≤ maxSteps →
     count_commits_until g newOid none maxSteps = some (d + L)) ∧
    (count_commits_until g newOid (some oldOid) 200000 = some d →
     ((meta.head_oid = oldOid ∧ oldOid ≠ zeroOidString →
        build_branch_metadata_commit_count g oldOid newOid (some meta) =
          meta.commit_count + (d : Int)) ∧
      (¬(meta.head_oid = oldOid ∧ oldOid ≠ zeroOidString) →
        build_branch_metadata_commit_count g oldOid newOid (some meta) =
          match count_commits_until g newOid none 200000 with
          | some total => (total : Int)
          | none => 0))) := by
  constructor
  · intro hd hL hle
    exact ccuGo_additive g oldOid maxSteps (some newOid) d hd maxSteps L hL maxSteps hle
  · intro hd
    constructor
    · intro hcond
      simp [build_branch_metadata_commit_count, hcond.1, hcond.2, hd]
    · intro hcond
      simp [build_branch_metadata_commit_count, hcond]

/-- Witness for C8 on the three-commit chain `gC8`: the full count from c3
is the stopped count (2) plus the count from c1 (1), and the metadata path
adds the stopped count to the existing row's 5. -/
theorem c8_witness :
    count_commits_until gC8 "c3" none 200000 = some 3 ∧
    build_branch_metadata_commit_count gC8 "c1" "c3" (some ⟨"c1", 5⟩) = 5 + (2 : Int) := by
  constructor
  · exact (c8_commit_count_incremental gC8 "c3" "c1" 200000 2 1 ⟨"c1", 5⟩).1
      (by decide) (by decide) (by omega)
  · exact ((c8_commit_count_incremental gC8 "c3" "c1" 200000 2 1 ⟨"c1", 5⟩).2
      (by decide)).1 (by decide)

/-- Hex digit rendering and parsing are inverse below 16, and digits are
printable ASCII other than `+`. -/
theorem hexDigitByte_facts :
    ∀ d, d < 16 → hexVal (hexDigitByte d) = some d ∧ hexDigitByte d < 128 ∧
      48 ≤ hexDigitByte d := by
  decide

/-- Below 0x10000 the `{:04x}` rendering is the four zero-padded digits. -/
theorem hex4_digits (n : Nat) (h : n ≤ 0xffff) :
    hex4 n = [hexDigitByte (n / 4096), hexDigitByte (n / 256 % 16),
      hexDigitByte (n / 16 % 16), hexDigitByte (n % 16)] := by
  unfold hex4
  rw [if_pos (by omega)]

/-- The rendering has exactly four bytes below 0x10000. -/
theorem hex4_length (n : Nat) (h : n ≤ 0xffff) : (hex4 n).length = 4 := by
  rw [hex4_digits n h]
  rfl

/-- The rendering is ASCII. -/
theorem rustFromUtf8_hex4 (n : Nat) (h : n ≤ 0xffff) :
    rustFromUtf8 (hex4 n) = some (hex4 n) := by
  have f0 := hexDigitByte_facts (n / 4096) (by omega)
  have f1 := hexDigitByte_facts (n / 256 % 16) (by omega)
  have f2 := hexDigitByte_facts (n / 16 % 16) (by omega)
  have f3 := hexDigitByte_facts (n % 16) (by omega)
  unfold rustFromUtf8
  rw [if_pos]
  rw [hex4_digits n h]
  simp [List.all_cons]
  omega

/-- Parsing the four rendered digits with `u16::from_str_radix` recovers
the value. -/
theorem rustU16_hex4 (n : Nat) (h : n ≤ 0xffff) :
    rustU16Radix16 (hex4 n) = some n := by
  have f0 := hexDigitByte_facts (n / 4096) (by omega)
  have f1 := hexDigitByte_facts (n / 256 % 16) (by omega)
  have f2 := hexDigitByte_facts (n / 16 % 16) (by omega)
  have f3 := hexDigitByte_facts (n % 16) (by omega)
  rw [hex4_digits n h]
  have hne43 : ¬hexDigitByte (n / 4096) = 43 := by omega
  simp only [rustU16Radix16, if_neg hne43]
  rw [if_neg (by simp)]
  simp only [hexFold, f0.1, f1.1, f2.1, f3.1]
  rw [if_pos (by omega)]
  congr 1
  omega

/-- Parsing an empty stream yields no lines, for any fuel. -/
theorem parsePktGo_nil (f : Nat) : parsePktGo f [] = [] := by
  cases f with
  | zero => rfl
  | succ f0 => simp [parsePktGo]

/-- Taking the frame length prefix of an encoded frame. -/
theorem hex4_take (n : Nat) (Y : List Nat) (h : n ≤ 0xffff) :
    (hex4 n ++ Y).take 4 = hex4 n := by
  rw [List.take_append_of_le_length (by rw [hex4_length n h])]
  exact List.take_of_length_le (by rw [hex4_length n h])

/-- Dropping the frame length prefix of an encoded frame. -/
theorem hex4_drop (n : Nat) (Y : List Nat) (h : n ≤ 0xffff) :
    (hex4 n ++ Y).drop 4 = Y := by
  rw [show (4 : Nat) = (hex4 n).length from (hex4_length n h).symm, List.drop_left]

/-- One encoded frame parses to its trimmed line, and the parser continues
on the remainder with one unit of fuel spent. -/
theorem parsePktGo_frame (F0 : Nat) (l Y : List Nat)
    (hascii : l.all (fun b => b < 128) = true)
    (hlen4 : l.length + 4 ≤ 0xffff) :
    parsePktGo (F0 + 1) (hex4 (l.length + 4) ++ (l ++ Y)) =
      rustTrim l :: parsePktGo F0 Y := by
  have hTot : (hex4 (l.length + 4) ++ (l ++ Y)).length = 4 + (l.length + Y.length) := by
    simp only [List.length_append, hex4_length _ hlen4]
  have hTake : (hex4 (l.length + 4) ++ (l ++ Y)).take 4 = hex4 (l.length + 4) :=
    hex4_take _ _ hlen4
  have hDrop4 : (hex4 (l.length + 4) ++ (l ++ Y)).drop 4 = l ++ Y :=
    hex4_drop _ _ hlen4
  have hDropLen : (hex4 (l.length + 4) ++ (l ++ Y)).drop (l.length + 4) = Y := by
    rw [show (hex4 (l.length + 4) ++ (l ++ Y)).drop (l.length + 4)
        = ((hex4 (l.length + 4) ++ (l ++ Y)).drop 4).drop l.length from by
      rw [List.drop_drop]
      congr 1
      omega]
    rw [hDrop4, List.drop_left]
  simp only [parsePktGo]
  rw [if_neg (show ¬((hex4 (l.length + 4) ++ (l ++ Y)).length < 4) from by
    rw [hTot]; omega)]
  rw [hTake, rustFromUtf8_hex4 _ hlen4]
  simp only [Option.getD_some]
  rw [rustU16_hex4 _ hlen4]
  simp only [Option.getD_some]
  rw [if_neg (show ¬(l.length + 4 = 0) from by omega)]
  rw [if_neg (show ¬(l.length + 4 < 4) from by omega)]
  rw [if_neg (show ¬(l.length + 4 > (hex4 (l.length + 4) ++ (l ++ Y)).length) from by
    rw [hTot]; omega)]
  rw [hDrop4]
  rw [show l.length + 4 - 4 = l.length from by omega]
  rw [List.take_append_of_le_length (by omega), List.take_of_length_le (by omega)]
  rw [show rustFromUtf8 l = some l from by unfold rustFromUtf8; rw [if_pos hascii]]
  rw [hDropLen]

/-- Round trip of the parser over the writers' encoding, for ASCII lines
that are trim-invariant and fit a pkt-line frame. -/
theorem parsePktGo_encode (lines : List (List Nat)) :
    ∀ F : Nat,
    (∀ l ∈ lines, l.all (fun b => b < 128) = true ∧ rustTrim l = l ∧ l.length + 4 ≤ 0xffff) →
    (pktEncode lines).length ≤ F →
    parsePktGo F (pktEncode lines) = lines := by
  induction lines with
  | nil =>
    intro F _ _
    rw [show pktEncode [] = [] from rfl]
    exact parsePktGo_nil F
  | cons l ls ih =>
    intro F hall hF
    obtain ⟨hascii, htrim, hlen4⟩ := hall l (by simp)
    have henc : pktEncode (l :: ls) = hex4 (l.length + 4) ++ (l ++ pktEncode ls) := by
      simp [pktEncode, pktLine, List.append_assoc]
    have hLen : (pktEncode (l :: ls)).length = 4 + l.length + (pktEncode ls).length := by
      rw [henc]
      simp [List.length_append, hex4_length _ hlen4]
      omega
    cases F with
    | zero =>
      exact absurd hF (by rw [hLen]; omega)
    | succ F0 =>
      rw [henc, parsePktGo_frame F0 l (pktEncode ls) hascii hlen4, htrim,
        ih F0 (fun l2 hl2 => hall l2 (by simp [hl2])) (by rw [hLen] at hF; omega)]

/-- Fuel beyond the stream length does not change the parse: each
iteration consumes at least 4 bytes, so `length` fuel already suffices. -/
theorem parsePktGo_mono (f1 : Nat) :
    ∀ f2 data, data.length ≤ f1 → f1 ≤ f2 →
      parsePktGo f1 data = parsePktGo f2 data := by
  induction f1 with
  | zero =>
    intro f2 data h1 _
    have hnil : data = [] := List.length_eq_zero.mp (by omega)
    subst hnil
    rw [parsePktGo_nil, parsePktGo_nil]
  | succ f ih =>
    intro f2 data h1 h2
    cases f2 with
    | zero => exact absurd h2 (by omega)
    | succ f2p =>
      by_cases hlt : data.length < 4
      · simp only [parsePktGo, if_pos hlt]
      · simp only [parsePktGo, if_neg hlt]
        set len := (rustU16Radix16 ((rustFromUtf8 (data.take 4)).getD (sb "0000"))).getD 0
          with hlen
        by_cases h0 : len = 0
        · rw [if_pos h0, if_pos h0]
          exact ih f2p (data.drop 4) (by simp only [List.length_drop]; omega) (by omega)
        · rw [if_neg h0, if_neg h0]
          by_cases h4 : len < 4
          · rw [if_pos h4, if_pos h4]
          · rw [if_neg h4, if_neg h4]
            by_cases hov : len > data.length
            · rw [if_pos hov, if_pos hov]
            · rw [if_neg hov, if_neg hov]
              have hrec : parsePktGo f (data.drop len) = parsePktGo f2p (data.drop len) :=
                ih f2p (data.drop len) (by simp only [List.length_drop]; omega) (by omega)
              cases hline : rustFromUtf8 ((data.drop 4).take (len - 4)) with
              | some line => simp only [hline, hrec]
              | none => simp only [hline, hrec]

/-- A leading `0000` flush frame is dropped by the parser: the stream
parses exactly as its remainder does. -/
theorem parse_flush_skipped (rest : List Nat) :
    parse_pkt_lines (sb "0000" ++ rest) = parse_pkt_lines rest := by
  have hL : (sb "0000" ++ rest).length = 4 + rest.length := by
    simp only [List.length_append]
    rfl
  unfold parse_pkt_lines
  rw [hL]
  rw [show 4 + rest.length = (3 + rest.length) + 1 from by omega]
  simp only [parsePktGo]
  rw [if_neg (show ¬((sb "0000" ++ rest).length < 4) from by rw [hL]; omega)]
  rw [show (sb "0000" ++ rest).take 4 = sb "0000" from by
    rw [show (4 : Nat) = (sb "0000").length from rfl, List.take_left]]
  rw [show (rustU16Radix16 ((rustFromUtf8 (sb "0000")).getD (sb "0000"))).getD 0 = 0 from by
    decide]
  rw [if_pos rfl]
  rw [show (sb "0000" ++ rest).drop 4 = rest from by
    rw [show (4 : Nat) = (sb "0000").length from rfl, List.drop_left]]
  exact (parsePktGo_mono rest.length (3 + rest.length) rest (le_refl _) (by omega)).symm

/-- C9 (amended): for lines that are ASCII, invariant under `trim`, and
short enough to fit a pkt-line frame, parsing the pkt-line encoding
returns the same list of lines; and a `0000` flush frame is not preserved
as a separator but skipped, the stream parsing exactly as if the flush
frame were absent. -/
theorem c9_pkt_roundtrip_flush_skipped (lines : List (List Nat)) (rest : List Nat)
    (hl : ∀ l ∈ lines,
      l.all (fun b => b < 128) = true ∧ rustTrim l = l ∧ l.length + 4 ≤ 0xffff) :
    parse_pkt_lines (pktEncode lines) = lines ∧
    parse_pkt_lines (sb "0000" ++ rest) = parse_pkt_lines rest := by
  exact ⟨parsePktGo_encode lines (pktEncode lines).length hl (le_refl _),
    parse_flush_skipped rest⟩

/-- Witness for C9 at a concrete two-line list and a concrete remainder. -/
theorem c9_witness :
    parse_pkt_lines (pktEncode [sb "a", sb "b"]) = [sb "a", sb "b"] ∧
    parse_pkt_lines (sb "0000" ++ sb "x") = parse_pkt_lines (sb "x") :=
  c9_pkt_roundtrip_flush_skipped [sb "a", sb "b"] (sb "x") (by decide)

/-- Counterexample to C9 as stated: a line consisting of one space is
trimmed by the parser, so the round trip is not the identity on every
list of lines; and a `0000` flush frame between two encoded frames leaves
no trace in the output, so flush frames are dropped rather than preserved
as separators. -/
theorem c9_counterexample :
    parse_pkt_lines (pktEncode [[32]]) ≠ [[32]] ∧
    parse_pkt_lines (pktEncode [sb "a"] ++ (sb "0000" ++ pktEncode [sb "b"]))
      = [sb "a", sb "b"] := by
  decide
